import Mathlib

/-!
Verification development for the folder-schema configuration loader
(`python/tank/folder/configuration.py`, class `FolderConfiguration`).

The Python module scans an on-disk schema: a directory tree in which each
directory may carry a sidecar metadata file `<dir>.yml`.  It builds a tree of
typed folder nodes plus an index from entity-type strings to the entity nodes
of that type.  We embed the module shallowly: the filesystem becomes an
in-memory tree of entries, the YAML parser stays a black box (a file carries
its parse result), and every fallible operation returns `Except`.
-/

namespace TankFolder

/-! ### Python string primitives

The source uses `str.startswith`, `str.endswith`, `"#" in line`,
`str.strip`, `line[:line.index("#")]` and `os.path.join`.  We model them over
`String` via the underlying character lists.  Python `str.strip()` removes
ASCII whitespace (space, tab, newline, carriage return, vertical tab, form
feed); non-ASCII whitespace never appears in the schema files modelled here.
-/

/-- Python `str.startswith(pre)`. -/
def strStartsWith (s pre : String) : Bool :=
  decide (pre.data <+: s.data)

/-- Python `str.endswith(suf)`. -/
def strEndsWith (s suf : String) : Bool :=
  decide (suf.data <:+ s.data)

/-- The characters Python `str.strip()` removes. -/
def pyIsSpace (c : Char) : Bool :=
  c == ' ' || c == '\t' || c == '\n' || c == '\r' || c == '\x0b' || c == '\x0c'

/-- Python `str.strip()`. -/
def pyStrip (s : String) : String :=
  ⟨((s.data.dropWhile pyIsSpace).reverse.dropWhile pyIsSpace).reverse⟩

/-- Python `os.path.join(a, b)` on posix: if the second component is
absolute it replaces the first, otherwise the components are joined with a
slash.  (The source never passes an empty or slash-terminated first
component.) -/
def osJoin (a b : String) : String :=
  if strStartsWith b "/" then b else a ++ "/" ++ b

/-! ### `fnmatch.fnmatch`

The source filters files through `fnmatch.fnmatch(file_name, pattern)`.  On
posix `os.path.normcase` is the identity, so this is glob matching:
`*` matches any run of characters, `?` any single character, `[...]` a
character class (leading `!` negates; a `]` directly after the opening
bracket, or after `!`, is a literal member; `a-b` is a code-point range; an
unclosed `[` is a literal bracket).  The matcher is written with explicit
fuel so that it is structurally recursive and kernel-evaluable; every
recursive call strictly decreases `pattern.length + input.length`, and the
fuel supplied by `globMatch` exceeds that sum, so the fuel never runs out.
-/

/-- Split a character-class body at its closing `]`.  Returns the class
content and the remainder of the pattern, or `none` if the class is not
closed. -/
def splitOnClose : List Char → Option (List Char × List Char)
  | [] => none
  | ']' :: rest => some ([], rest)
  | c :: rest => (splitOnClose rest).map (fun pr => (c :: pr.1, pr.2))

/-- Parse the pattern right after `[`: an optional `!` (negation), an
optional leading literal `]`, then the class content up to the closing `]`.
Returns the negation flag, the raw class content and the pattern remainder,
or `none` when the bracket is unclosed (then `[` is a literal). -/
def splitClassFrom (ps : List Char) : Option (Bool × List Char × List Char) :=
  let negBody : Bool × List Char :=
    match ps with
    | '!' :: r => (true, r)
    | r => (false, r)
  match negBody.2 with
  | ']' :: r2 => (splitOnClose r2).map (fun pr => (negBody.1, ']' :: pr.1, pr.2))
  | body => (splitOnClose body).map (fun pr => (negBody.1, pr.1, pr.2))

/-- Interpret class content as singleton members and `a-b` ranges (a `-`
that is first, last, or right after a range is a literal member). -/
def classItems : List Char → List (Char × Char)
  | a :: '-' :: b :: rest => (a, b) :: classItems rest
  | a :: rest => (a, a) :: classItems rest
  | [] => []

/-- Membership of a character in a parsed class.  (A reversed range such as
`z-a` matches nothing; CPython would reject the compiled regex, a divergence
only reachable from a malformed ignore pattern.) -/
def matchItems (items : List (Char × Char)) (c : Char) : Bool :=
  items.any (fun ab => ab.1 ≤ c && c ≤ ab.2)

/-- Fueled glob matcher: does the pattern match the whole input? -/
def globMatchF : Nat → List Char → List Char → Bool
  | 0, _, _ => false
  | _ + 1, [], [] => true
  | _ + 1, [], _ :: _ => false
  | fuel + 1, '*' :: ps, [] => globMatchF fuel ps []
  | fuel + 1, '*' :: ps, c :: cs =>
      globMatchF fuel ps (c :: cs) || globMatchF fuel ('*' :: ps) cs
  | _ + 1, '?' :: _, [] => false
  | fuel + 1, '?' :: ps, _ :: cs => globMatchF fuel ps cs
  | _ + 1, '[' :: _, [] => false
  | fuel + 1, '[' :: ps, c :: cs =>
      match splitClassFrom ps with
      | none => c == '[' && globMatchF fuel ps cs
      | some (neg, content, rest) =>
          (matchItems (classItems content) c != neg) && globMatchF fuel rest cs
  | _ + 1, _ :: _, [] => false
  | fuel + 1, p :: ps, c :: cs => p == c && globMatchF fuel ps cs

/-- Glob matching with sufficient fuel. -/
def globMatch (p s : List Char) : Bool :=
  globMatchF (p.length + s.length + 1) p s

/-- Python `fnmatch.fnmatch(name, pat)` (posix `normcase` is the identity). -/
def fnmatch (name pat : String) : Bool :=
  globMatch pat.data name.data

/-! ### The in-memory filesystem

A directory entry is a file or a subdirectory, both carrying the name that
`os.listdir` reports.  List order is the enumeration order of `os.listdir`.
A file carries its text lines (as read by `readlines`, newline already
removed; `str.strip` would drop it anyway) and, since the YAML parser is a
black box, the result of parsing the file as YAML: a parse failure with its
message, or a parsed value that is either null (`yaml.load` of an empty
document returns `None`) or a key/value mapping.  Only string-valued keys
are ever inspected by the loader (`type`, `entity_type`), so mapping values
are modelled as strings. -/

instance {ε α : Type} [DecidableEq ε] [DecidableEq α] : DecidableEq (Except ε α) := fun a b =>
  match a, b with
  | .ok x, .ok y => if h : x = y then .isTrue (by rw [h]) else .isFalse (by simp [h])
  | .error x, .error y => if h : x = y then .isTrue (by rw [h]) else .isFalse (by simp [h])
  | .ok _, .error _ => .isFalse (by simp)
  | .error _, .ok _ => .isFalse (by simp)

structure FileContent where
  lines : List String
  yaml : Except String (Option (List (String × String)))
deriving Repr, DecidableEq

inductive Entry where
  | file : String → FileContent → Entry
  | dir : String → List Entry → Entry
deriving Repr

/-- The name `os.listdir` reports for an entry. -/
def entryName : Entry → String
  | .file n _ => n
  | .dir n _ => n

/-- Resolve a name inside a directory (first match, as on a real filesystem
where names are unique).  `os.path.exists` is `(lookupEntry es nm).isSome`. -/
def lookupEntry (es : List Entry) (nm : String) : Option Entry :=
  es.find? (fun e => entryName e == nm)

/-! ### Errors

Every validation failure in the source raises `TankError(message)`; the
error identity lives in the message text.  We keep a structured constructor
per raise site plus the exact message each site formats.  One extra case:
`_read_ignore_files` opens its file without a surrounding `try`, so an
`open()` on a directory named `ignore_files` propagates a raw OS error that
is not a `TankError`; `BuildError` distinguishes the two. -/

inductive TankError where
  /-- `_read_metadata`: the sidecar exists but loading it raised; carries
  the directory path (the message appends `.yml`) and the underlying parse
  failure text. -/
  | configParse (path : String) (detail : String)
  /-- `_load_schema`: a top-level directory has no metadata. -/
  | missingRootMetadata (path : String)
  /-- `_load_schema`: a top-level metadata `type` is not `project`. -/
  | invalidRootType (path : String)
  /-- `_process_config_r`: an unrecognized metadata `type`. -/
  | unknownSchemaType (path : String) (nodeType : String)
deriving Repr, DecidableEq

/-- The exact message each raise site formats. -/
def TankError.message : TankError → String
  | .configParse path detail =>
      "Cannot load config file '" ++ (path ++ ".yml") ++ "'. Error: " ++ detail
  | .missingRootMetadata path =>
      "Project directory missing required metadata file: " ++ path
  | .invalidRootType path =>
      "Only items of type 'project' are allowed at the root level: " ++ path
  | .unknownSchemaType path nodeType =>
      "Error in " ++ path ++ ". Unknown metadata type '" ++ nodeType ++ "'"

inductive BuildError where
  | tank (e : TankError)
  /-- An uncaught OS-level error (only the `ignore_files`-is-a-directory
  corner of `_read_ignore_files` can produce it). -/
  | osError (path : String)
deriving Repr, DecidableEq

/-! ### Folder nodes

`folder_types.py` is not part of the sources under verification; per the
specification its node variants are simple data carriers over a common
shape (path, metadata passed through verbatim, attached payload files,
children).  Modelled from the spec: each `X.create(tk, parent, path,
metadata)` records its arguments; the `tk` handle and the parent
back-reference carry no information used here (the parent/child relation is
the tree structure itself). -/

inductive NodeType where
  | project
  | shotgunEntity
  | shotgunListField
  | static
  | userWorkspace
  | shotgunStep
  | shotgunTask
deriving Repr, DecidableEq

inductive FolderNode where
  | mk : NodeType → String → List (String × String) → List String →
      List FolderNode → FolderNode
deriving Repr

def FolderNode.ntype : FolderNode → NodeType
  | .mk t _ _ _ _ => t

def FolderNode.path : FolderNode → String
  | .mk _ p _ _ _ => p

def FolderNode.metadata : FolderNode → List (String × String)
  | .mk _ _ md _ _ => md

def FolderNode.files : FolderNode → List String
  | .mk _ _ _ fs _ => fs

def FolderNode.children : FolderNode → List FolderNode
  | .mk _ _ _ _ cs => cs

/-- Python `dict.get(k)` on a parsed mapping (first binding wins, as in a
`dict`, whose keys are unique). -/
def mget (md : List (String × String)) (k : String) : Option String :=
  (md.find? (fun kv => kv.1 == k)).map (fun kv => kv.2)

/-- Modelled from the spec: `Entity.get_entity_type` (from the absent
`folder_types.py`) reads the entity-type string from the node metadata
field `entity_type`. -/
def FolderNode.get_entity_type (n : FolderNode) : String :=
  (mget n.metadata "entity_type").getD ""

/-! ### The embedded source functions

Lean identifiers cannot comfortably carry the leading underscore of the
Python method names, so `_get_sub_directories` becomes
`get_sub_directories` and so on.  Each definition names the method it
embeds. -/

/-- `FolderConfiguration._get_sub_directories`: all subdirectories of a
path whose name does not start with a dot.  The source returns full path
strings and later re-lists them; in the in-memory filesystem we return the
directory entries themselves, which carry the same information. -/
def get_sub_directories (entries : List Entry) : List Entry :=
  entries.filter (fun e =>
    match e with
    | .dir name _ => !strStartsWith name "."
    | .file _ _ => false)

/-- `FolderConfiguration._get_files_in_folder`: every `os.listdir` entry
whose name matches no ignore pattern, is a regular file, and whose full
path does not end in `.yml`, in enumeration order. -/
def get_files_in_folder (ig : List String) (entries : List Entry) (parentPath : String) :
    List String :=
  entries.filterMap (fun e =>
    if ig.any (fun p => fnmatch (entryName e) p) then none
    else
      match e with
      | .file _ _ =>
          if strEndsWith (osJoin parentPath (entryName e)) ".yml" then none
          else some (osJoin parentPath (entryName e))
      | .dir _ _ => none)

/-- `FolderConfiguration._read_metadata`: look for the sibling file
`<name>.yml` in the parent directory.  Absent file: `ok none` (no
metadata).  Present but failing to load (including `open()` raising on a
directory of that name, since the `try` block wraps the `open` call):
`TankError` carrying the path.  Otherwise the `yaml.load` result, which is
`none` for a null document and `some mapping` for a parsed mapping.
`fullPath` is the directory path used in the error message (the source
appends `.yml` to it). -/
def read_metadata (parentEntries : List Entry) (fullPath name : String) :
    Except TankError (Option (List (String × String))) :=
  match lookupEntry parentEntries (name ++ ".yml") with
  | none => .ok none
  | some (.dir _ _) => .error (.configParse fullPath "Is a directory")
  | some (.file _ content) =>
      match content.yaml with
      | .error detail => .error (.configParse fullPath detail)
      | .ok md => .ok md

/-- One line of `_read_ignore_files`: cut everything from the first `#`,
strip whitespace, keep the remainder if non-empty. -/
def processIgnoreLine (line : String) : Option String :=
  let cut := if line.data.contains '#'
    then String.mk (line.data.takeWhile (fun c => c ≠ '#'))
    else line
  let stripped := pyStrip cut
  if stripped = "" then none else some stripped

/-- `FolderConfiguration._read_ignore_files`: read glob patterns from the
optional `ignore_files` at the schema root.  A directory of that name
makes the unguarded `open()` raise an OS error. -/
def read_ignore_files (rootEntries : List Entry) : Except BuildError (List String) :=
  match lookupEntry rootEntries "ignore_files" with
  | none => .ok []
  | some (.dir _ _) => .error (.osError "ignore_files")
  | some (.file _ content) => .ok (content.lines.filterMap processIgnoreLine)

/-- The `type` values recognized by `_process_config_r`. -/
def knownTypes : List String :=
  ["shotgun_entity", "shotgun_list_field", "static", "user_workspace",
   "shotgun_step", "shotgun_task"]

/-- The per-directory head of `_process_config_r`: Python truthiness
(`if metadata:`) sends both a missing mapping and an empty mapping to the
implicit-static branch, which passes the literal mapping
`{"type": "static"}`; a truthy mapping goes through the `elif` chain on
`metadata.get("type", "undefined")`. -/
def nodeSpec (fullPath : String) (mdOpt : Option (List (String × String))) :
    Except TankError (NodeType × List (String × String)) :=
  match mdOpt with
  | some md =>
      if md.isEmpty then .ok (.static, [("type", "static")])
      else
        let node_type := (mget md "type").getD "undefined"
        if node_type = "shotgun_entity" then .ok (.shotgunEntity, md)
        else if node_type = "shotgun_list_field" then .ok (.shotgunListField, md)
        else if node_type = "static" then .ok (.static, md)
        else if node_type = "user_workspace" then .ok (.userWorkspace, md)
        else if node_type = "shotgun_step" then .ok (.shotgunStep, md)
        else if node_type = "shotgun_task" then .ok (.shotgunTask, md)
        else .error (.unknownSchemaType fullPath node_type)
  | none => .ok (.static, [("type", "static")])

mutual
/-- One iteration of the `_process_config_r` loop body for a single
`os.listdir` entry.  Files and hidden directories are the entries that
`_get_sub_directories` drops (the filter is fused into the walk so the
recursion stays structural; `processList_filter` below proves the fusion
exact).  For a subdirectory: read the sidecar metadata, dispatch on its
type, build the subtree, attach the payload files of the directory, and
emit the entity-index pairs in creation order — the node itself first
(Python appends `cur_node` to the index before recursing), then the pairs
of its subtree.  Each emitted node is the fully built node, matching the
source where the mutable node object registered in the index is the same
object later filled with children and files. -/
def processEntry (ig : List String) (parentEntries : List Entry) (parentPath : String) :
    Entry → Except TankError (List FolderNode × List (String × FolderNode))
  | .file _ _ => .ok ([], [])
  | .dir name sub =>
      if strStartsWith name "." then .ok ([], [])
      else
        let fullPath := osJoin parentPath name
        match read_metadata parentEntries fullPath name with
        | .error e => .error e
        | .ok mdOpt =>
            match nodeSpec fullPath mdOpt with
            | .error e => .error e
            | .ok nt =>
                match processList ig sub fullPath sub with
                | .error e => .error e
                | .ok res =>
                    let node := FolderNode.mk nt.1 fullPath nt.2
                      (get_files_in_folder ig sub fullPath) res.1
                    let ownPairs :=
                      if nt.1 = .shotgunEntity then [(node.get_entity_type, node)] else []
                    .ok ([node], ownPairs ++ res.2)

/-- `FolderConfiguration._process_config_r` over the `os.listdir` entries
of a directory: left-to-right, aborting at the first error, concatenating
the constructed nodes and the emitted index pairs. -/
def processList (ig : List String) (parentEntries : List Entry) (parentPath : String) :
    List Entry → Except TankError (List FolderNode × List (String × FolderNode))
  | [] => .ok ([], [])
  | e :: rest =>
      match processEntry ig parentEntries parentPath e with
      | .error er => .error er
      | .ok r1 =>
          match processList ig parentEntries parentPath rest with
          | .error er => .error er
          | .ok r2 => .ok (r1.1 ++ r2.1, r1.2 ++ r2.2)
end

/-- The loop of `FolderConfiguration._load_schema` over the top-level
directories.  The source joins the root path with the already-joined full
path of each project directory (`os.path.join(schema_config_path,
project_dir)`), hence the nested `osJoin`.  A missing metadata mapping
(absent sidecar or null document) raises the missing-root-metadata error;
a mapping whose `type` is not `project` raises the invalid-root-type
error; otherwise the project node is built, registered under the literal
key `"Project"` ahead of its subtree pairs, and the loop continues. -/
def load_schema_loop (ig : List String) (rootEntries : List Entry) (rootPath : String) :
    List Entry → Except TankError (List FolderNode × List (String × FolderNode))
  | [] => .ok ([], [])
  | .file _ _ :: rest => load_schema_loop ig rootEntries rootPath rest
  | .dir name sub :: rest =>
      let folder := osJoin rootPath (osJoin rootPath name)
      match read_metadata rootEntries folder name with
      | .error e => .error e
      | .ok none => .error (.missingRootMetadata folder)
      | .ok (some md) =>
          if mget md "type" ≠ some "project" then .error (.invalidRootType folder)
          else
            match processList ig sub folder sub with
            | .error e => .error e
            | .ok res =>
                let projNode := FolderNode.mk .project folder md
                  (get_files_in_folder ig sub folder) res.1
                match load_schema_loop ig rootEntries rootPath rest with
                | .error e => .error e
                | .ok res2 =>
                    .ok (projNode :: res2.1, ("Project", projNode) :: (res.2 ++ res2.2))

/-- `FolderConfiguration._load_schema`: run the root loop over the
non-hidden top-level directories. -/
def load_schema (ig : List String) (rootEntries : List Entry) (rootPath : String) :
    Except TankError (List FolderNode × List (String × FolderNode)) :=
  load_schema_loop ig rootEntries rootPath (get_sub_directories rootEntries)

/-- One index registration, as performed by `_process_config_r` on
`self._entity_nodes_by_type`: create the key with an empty list when it is
new (insertion at the end, like `dict` insertion order), then append the
node. -/
def indexInsert (idx : List (String × List FolderNode)) (et : String) (n : FolderNode) :
    List (String × List FolderNode) :=
  if (idx.find? (fun kv => kv.1 == et)).isSome then
    idx.map (fun kv => if kv.1 == et then (kv.1, kv.2 ++ [n]) else kv)
  else idx ++ [(et, [n])]

/-- The entity index after a build: Python initializes
`self._entity_nodes_by_type["Project"] = []` before the loop, then
registers each node at its creation point; `pairs` is that registration
sequence. -/
def buildIndex (pairs : List (String × FolderNode)) : List (String × List FolderNode) :=
  pairs.foldl (fun idx pr => indexInsert idx pr.1 pr.2) [("Project", [])]

/-- `FolderConfiguration.get_folder_objs_for_entity_type`:
`self._entity_nodes_by_type.get(entity_type, [])`. -/
def get_folder_objs_for_entity_type (idx : List (String × List FolderNode)) (et : String) :
    List FolderNode :=
  ((idx.find? (fun kv => kv.1 == et)).map (fun kv => kv.2)).getD []

/-- The state a successfully constructed `FolderConfiguration` holds. -/
structure FolderConfiguration where
  ignore_files : List String
  projects : List FolderNode
  entity_nodes_by_type : List (String × List FolderNode)
deriving Repr

/-- `FolderConfiguration.__init__`: read the ignore patterns, then load the
schema; any error aborts construction. -/
def mkFolderConfiguration (rootEntries : List Entry) (rootPath : String) :
    Except BuildError FolderConfiguration :=
  match read_ignore_files rootEntries with
  | .error e => .error e
  | .ok ig =>
      match load_schema ig rootEntries rootPath with
      | .error e => .error (.tank e)
      | .ok res => .ok ⟨ig, res.1, buildIndex res.2⟩

/-! ### Helper lemmas on strings and paths -/

theorem suffix_of_suffix_length_le {l₁ l₂ l₃ : List Char} (h₁ : l₁ <:+ l₃) (h₂ : l₂ <:+ l₃)
    (h : l₁.length ≤ l₂.length) : l₁ <:+ l₂ := by
  rw [← List.reverse_prefix] at h₁ h₂ ⊢
  exact List.prefix_of_prefix_length_le h₁ h₂ (by simpa using h)

/-- A slash-free suffix reaches at most the last path component. -/
theorem suffix_append_slash {t l m : List Char} (h : '/' ∉ t) :
    t <:+ l ++ '/' :: m ↔ t <:+ m := by
  constructor
  · intro hs
    rcases le_or_lt t.length m.length with hle | hlt
    · have hm : m <:+ l ++ '/' :: m :=
        (List.suffix_cons '/' m).trans (List.suffix_append l ('/' :: m))
      exact suffix_of_suffix_length_le hs hm hle
    · have hcm : ('/' :: m) <:+ l ++ '/' :: m := List.suffix_append l ('/' :: m)
      have hsub : ('/' :: m) <:+ t :=
        suffix_of_suffix_length_le hcm hs (by simpa using hlt)
      exact absurd (hsub.subset (List.mem_cons_self '/' m)) h
  · intro hs
    exact hs.trans ((List.suffix_cons '/' m).trans (List.suffix_append l ('/' :: m)))

theorem strEndsWith_osJoin {p n : String} (suf : String) (hsl : '/' ∉ suf.data)
    (hn : strStartsWith n "/" = false) :
    strEndsWith (osJoin p n) suf = strEndsWith n suf := by
  simp only [osJoin, hn, Bool.false_eq_true, if_false]
  simp only [strEndsWith]
  have hdata : (p ++ "/" ++ n).data = p.data ++ '/' :: n.data := by
    simp [String.data_append]
  rw [hdata]
  exact decide_eq_decide.mpr (suffix_append_slash hsl)

theorem endsYml_osJoin {p n : String} (hn : strStartsWith n "/" = false) :
    strEndsWith (osJoin p n) ".yml" = strEndsWith n ".yml" :=
  strEndsWith_osJoin ".yml" (by decide) hn

theorem osJoin_inj {p n m : String} (hn : strStartsWith n "/" = false)
    (hm : strStartsWith m "/" = false) (h : osJoin p n = osJoin p m) : n = m := by
  simp only [osJoin, hn, hm, Bool.false_eq_true, if_false] at h
  have hdata := congrArg String.data h
  simp only [String.data_append] at hdata
  have hnd := List.append_cancel_left hdata
  cases n; cases m
  exact congrArg String.mk (by simpa using hnd)

theorem startsWith_dot_not_slash {n : String} (h : strStartsWith n "." = true) :
    strStartsWith n "/" = false := by
  have hpre : ".".data <+: n.data := of_decide_eq_true h
  rcases hpre with ⟨t, ht⟩
  apply decide_eq_false
  intro hpre2
  rcases hpre2 with ⟨u, hu⟩
  rw [← ht] at hu
  simp at hu

/-! ### Index lemmas

`buildIndex` folds `indexInsert` over the registration sequence; the lemmas
below characterize the resulting lookups as a filter of that sequence. -/

theorem gfo_cons (k : String) (v : List FolderNode)
    (rest : List (String × List FolderNode)) (et : String) :
    get_folder_objs_for_entity_type ((k, v) :: rest) et =
      if k = et then v else get_folder_objs_for_entity_type rest et := by
  by_cases h : k = et
  · simp [get_folder_objs_for_entity_type, List.find?_cons, h]
  · simp [get_folder_objs_for_entity_type, List.find?_cons, h]

theorem gfo_not_found (l : List (String × List FolderNode)) (et : String)
    (h : l.find? (fun kv => kv.1 == et) = none) :
    get_folder_objs_for_entity_type l et = [] := by
  simp [get_folder_objs_for_entity_type, h]

theorem gfo_map_ne (et' et : String) (n : FolderNode)
    (l : List (String × List FolderNode)) (he : et' ≠ et) :
    get_folder_objs_for_entity_type
        (l.map (fun kv => if kv.1 == et' then (kv.1, kv.2 ++ [n]) else kv)) et =
      get_folder_objs_for_entity_type l et := by
  induction l with
  | nil => simp [get_folder_objs_for_entity_type]
  | cons kv rest ih =>
    obtain ⟨k, v⟩ := kv
    by_cases hk : k = et'
    · subst hk
      have hke : k ≠ et := he
      simp only [List.map_cons, beq_self_eq_true, if_true]
      rw [gfo_cons, gfo_cons, if_neg hke, if_neg hke]
      exact ih
    · have hkb : (k == et') = false := by simpa using hk
      simp only [List.map_cons, hkb, Bool.false_eq_true, if_false]
      by_cases hke : k = et
      · rw [gfo_cons, gfo_cons, if_pos hke, if_pos hke]
      · rw [gfo_cons, gfo_cons, if_neg hke, if_neg hke]
        exact ih

theorem gfo_map_eq (et : String) (n : FolderNode) (l : List (String × List FolderNode)) :
    get_folder_objs_for_entity_type
        (l.map (fun kv => if kv.1 == et then (kv.1, kv.2 ++ [n]) else kv)) et =
      if (l.find? (fun kv => kv.1 == et)).isSome then
        get_folder_objs_for_entity_type l et ++ [n]
      else [] := by
  induction l with
  | nil => simp [get_folder_objs_for_entity_type]
  | cons kv rest ih =>
    obtain ⟨k, v⟩ := kv
    by_cases hk : k = et
    · subst hk
      simp only [List.map_cons, beq_self_eq_true, if_true]
      rw [gfo_cons, if_pos rfl]
      rw [List.find?_cons_of_pos _ (by simp)]
      simp [gfo_cons]
    · have hkb : (k == et) = false := by simpa using hk
      simp only [List.map_cons, hkb, Bool.false_eq_true, if_false]
      rw [gfo_cons, if_neg hk]
      rw [List.find?_cons_of_neg _ (by simp [hk])]
      rw [gfo_cons, if_neg hk]
      exact ih

theorem gfo_append_single (l : List (String × List FolderNode)) (k et : String)
    (v : List FolderNode) :
    get_folder_objs_for_entity_type (l ++ [(k, v)]) et =
      if (l.find? (fun kv => kv.1 == et)).isSome then
        get_folder_objs_for_entity_type l et
      else if k = et then v else [] := by
  induction l with
  | nil =>
    simp only [List.nil_append, List.find?_nil, Option.isSome_none, Bool.false_eq_true,
      if_false]
    rw [gfo_cons]
    by_cases h : k = et <;> simp [h, get_folder_objs_for_entity_type]
  | cons kv rest ih =>
    obtain ⟨k2, v2⟩ := kv
    by_cases hk2 : k2 = et
    · rw [List.cons_append, gfo_cons, if_pos hk2,
        List.find?_cons_of_pos _ (by simp [hk2])]
      simp [gfo_cons, hk2]
    · rw [List.cons_append, gfo_cons, if_neg hk2,
        List.find?_cons_of_neg _ (by simp [hk2]), ih]
      rw [gfo_cons, if_neg hk2]

/-- One registration appends the node to exactly the list of its key. -/
theorem gfo_indexInsert (idx : List (String × List FolderNode)) (et' et : String)
    (n : FolderNode) :
    get_folder_objs_for_entity_type (indexInsert idx et' n) et =
      get_folder_objs_for_entity_type idx et ++ (if et' = et then [n] else []) := by
  unfold indexInsert
  by_cases hf : (idx.find? (fun kv => kv.1 == et')).isSome = true
  · rw [if_pos hf]
    by_cases he : et' = et
    · subst he
      rw [gfo_map_eq, if_pos hf, if_pos rfl]
    · rw [gfo_map_ne _ _ _ _ he, if_neg he, List.append_nil]
  · rw [if_neg hf, gfo_append_single]
    have hfn : idx.find? (fun kv => kv.1 == et') = none := by
      cases hq : idx.find? (fun kv => kv.1 == et') <;> simp [hq] at hf ⊢
    by_cases he : et' = et
    · subst he
      rw [if_neg (by simp [hfn]), if_pos rfl, gfo_not_found idx et' hfn]
      simp
    · by_cases hfe : (idx.find? (fun kv => kv.1 == et)).isSome = true
      · rw [if_pos hfe, if_neg he, List.append_nil]
      · have hfen : idx.find? (fun kv => kv.1 == et) = none := by
          cases hq : idx.find? (fun kv => kv.1 == et) <;> simp [hq] at hfe ⊢
        rw [if_neg hfe, if_neg he, gfo_not_found idx et hfen]
        simp [he]

/-- The fold over a registration sequence appends, per key, exactly the
registered nodes of that key, in order. -/
theorem gfo_foldl (pairs : List (String × FolderNode))
    (idx : List (String × List FolderNode)) (et : String) :
    get_folder_objs_for_entity_type
        (pairs.foldl (fun idx pr => indexInsert idx pr.1 pr.2) idx) et =
      get_folder_objs_for_entity_type idx et ++
        (pairs.filter (fun pr => pr.1 == et)).map (fun pr => pr.2) := by
  induction pairs generalizing idx with
  | nil => simp
  | cons pr rest ih =>
    obtain ⟨t, n⟩ := pr
    rw [List.foldl_cons, ih, gfo_indexInsert]
    by_cases ht : t = et
    · subst ht
      simp [List.filter_cons]
    · simp [List.filter_cons, ht]

/-- The lookup into a freshly built index is exactly the filter of the
registration sequence at that key. -/
theorem gfo_buildIndex (pairs : List (String × FolderNode)) (et : String) :
    get_folder_objs_for_entity_type (buildIndex pairs) et =
      (pairs.filter (fun pr => pr.1 == et)).map (fun pr => pr.2) := by
  unfold buildIndex
  rw [gfo_foldl]
  by_cases h : "Project" = et
  · subst h
    rw [gfo_cons, if_pos rfl]
    simp
  · rw [gfo_cons, if_neg h]
    simp [get_folder_objs_for_entity_type]

/-! ### Walker unfolding lemmas -/

theorem processList_nil (ig : List String) (E : List Entry) (p : String) :
    processList ig E p [] = .ok ([], []) := rfl

theorem processList_cons (ig : List String) (E : List Entry) (p : String) (e : Entry)
    (rest : List Entry) :
    processList ig E p (e :: rest) =
      match processEntry ig E p e with
      | .error er => .error er
      | .ok r1 =>
          match processList ig E p rest with
          | .error er => .error er
          | .ok r2 => .ok (r1.1 ++ r2.1, r1.2 ++ r2.2) := rfl

theorem processEntry_file (ig : List String) (E : List Entry) (p n : String)
    (c : FileContent) : processEntry ig E p (.file n c) = .ok ([], []) := rfl

theorem processEntry_hidden (ig : List String) (E : List Entry) (p name : String)
    (sub : List Entry) (h : strStartsWith name "." = true) :
    processEntry ig E p (.dir name sub) = .ok ([], []) := by
  simp [processEntry, h]

/-- The node a non-hidden subdirectory produces, with the metadata read,
the dispatch, the subtree and the payload files spelled out. -/
theorem processEntry_dir (ig : List String) (E : List Entry) (p name : String)
    (sub : List Entry) (h : strStartsWith name "." = false) :
    processEntry ig E p (.dir name sub) =
      match read_metadata E (osJoin p name) name with
      | .error e => .error e
      | .ok mdOpt =>
          match nodeSpec (osJoin p name) mdOpt with
          | .error e => .error e
          | .ok nt =>
              match processList ig sub (osJoin p name) sub with
              | .error e => .error e
              | .ok res =>
                  .ok ([FolderNode.mk nt.1 (osJoin p name) nt.2
                          (get_files_in_folder ig sub (osJoin p name)) res.1],
                    (if nt.1 = .shotgunEntity then
                      [((FolderNode.mk nt.1 (osJoin p name) nt.2
                          (get_files_in_folder ig sub (osJoin p name)) res.1).get_entity_type,
                        FolderNode.mk nt.1 (osJoin p name) nt.2
                          (get_files_in_folder ig sub (osJoin p name)) res.1)]
                    else []) ++ res.2) := by
  simp only [processEntry, h, Bool.false_eq_true, if_false]

/-- The walk only looks at the entries `_get_sub_directories` keeps: the
inlined skip of files and hidden directories is exactly the source's
pre-filtering of the directory listing. -/
theorem processList_filter (ig : List String) (E : List Entry) (p : String)
    (l : List Entry) :
    processList ig E p l = processList ig E p (get_sub_directories l) := by
  induction l with
  | nil => rfl
  | cons e rest ih =>
    cases e with
    | file n c =>
      have hstep : processList ig E p (Entry.file n c :: rest) = processList ig E p rest := by
        rw [processList_cons, processEntry_file]
        cases hr : processList ig E p rest with
        | error er => simp
        | ok r2 => simp
      have hdropf : get_sub_directories (Entry.file n c :: rest) =
          get_sub_directories rest := by
        simp [get_sub_directories, List.filter_cons]
      rw [hstep, ih, hdropf]
    | dir name sub =>
      cases hh : strStartsWith name "." with
      | true =>
        have hstep : processList ig E p (Entry.dir name sub :: rest) =
            processList ig E p rest := by
          rw [processList_cons, processEntry_hidden ig E p name sub hh]
          cases hr : processList ig E p rest with
          | error er => simp
          | ok r2 => simp
        have hdrop : get_sub_directories (Entry.dir name sub :: rest) =
            get_sub_directories rest := by
          simp [get_sub_directories, List.filter_cons, hh]
        rw [hstep, ih, hdrop]
      | false =>
        have hkeep : get_sub_directories (Entry.dir name sub :: rest) =
            Entry.dir name sub :: get_sub_directories rest := by
          simp [get_sub_directories, List.filter_cons, hh]
        rw [hkeep, processList_cons, processList_cons, ih]

/-! ### What the walk registers in the index

Every pair the walk emits is an entity node keyed by its own derived
entity-type. -/

mutual
theorem processEntry_pairs (ig : List String) (E : List Entry) (p : String) (e : Entry)
    (res : List FolderNode × List (String × FolderNode))
    (h : processEntry ig E p e = .ok res) :
    ∀ pr ∈ res.2, pr.2.ntype = NodeType.shotgunEntity ∧ pr.1 = pr.2.get_entity_type := by
  cases e with
  | file n c =>
    rw [processEntry_file] at h
    injection h with h2
    subst h2
    intro pr hpr
    simp at hpr
  | dir name sub =>
    cases hh : strStartsWith name "." with
    | true =>
      rw [processEntry_hidden ig E p name sub hh] at h
      injection h with h2
      subst h2
      intro pr hpr
      simp at hpr
    | false =>
      rw [processEntry_dir ig E p name sub hh] at h
      cases hm : read_metadata E (osJoin p name) name with
      | error e2 => simp [hm] at h
      | ok mdOpt =>
        simp only [hm] at h
        cases hs : nodeSpec (osJoin p name) mdOpt with
        | error e2 => simp [hs] at h
        | ok nt =>
          simp only [hs] at h
          cases hl : processList ig sub (osJoin p name) sub with
          | error e2 => simp [hl] at h
          | ok res2 =>
            simp only [hl] at h
            injection h with h2
            subst h2
            intro pr hpr
            rw [List.mem_append] at hpr
            cases hpr with
            | inl hown =>
              by_cases hnt : nt.1 = NodeType.shotgunEntity
              · rw [if_pos hnt] at hown
                simp only [List.mem_singleton] at hown
                subst hown
                exact ⟨hnt, rfl⟩
              · rw [if_neg hnt] at hown
                simp at hown
            | inr hres2 =>
              exact processList_pairs ig sub (osJoin p name) sub res2 hl pr hres2

theorem processList_pairs (ig : List String) (E : List Entry) (p : String) (l : List Entry)
    (res : List FolderNode × List (String × FolderNode))
    (h : processList ig E p l = .ok res) :
    ∀ pr ∈ res.2, pr.2.ntype = NodeType.shotgunEntity ∧ pr.1 = pr.2.get_entity_type := by
  cases l with
  | nil =>
    rw [processList_nil] at h
    injection h with h2
    subst h2
    intro pr hpr
    simp at hpr
  | cons e rest =>
    rw [processList_cons] at h
    cases he : processEntry ig E p e with
    | error er => simp [he] at h
    | ok r1 =>
      simp only [he] at h
      cases hr : processList ig E p rest with
      | error er => simp [hr] at h
      | ok r2 =>
        simp only [hr] at h
        injection h with h2
        subst h2
        intro pr hpr
        rw [List.mem_append] at hpr
        cases hpr with
        | inl h1 => exact processEntry_pairs ig E p e r1 he pr h1
        | inr h2 => exact processList_pairs ig E p rest r2 hr pr h2
end

/-! ### Root-loop lemmas -/

theorem load_loop_nil (ig : List String) (E : List Entry) (root : String) :
    load_schema_loop ig E root [] = .ok ([], []) := rfl

theorem load_loop_file (ig : List String) (E : List Entry) (root n : String)
    (c : FileContent) (rest : List Entry) :
    load_schema_loop ig E root (.file n c :: rest) =
      load_schema_loop ig E root rest := rfl

theorem load_loop_dir (ig : List String) (E : List Entry) (root name : String)
    (sub rest : List Entry) :
    load_schema_loop ig E root (.dir name sub :: rest) =
      match read_metadata E (osJoin root (osJoin root name)) name with
      | .error e => .error e
      | .ok none => .error (.missingRootMetadata (osJoin root (osJoin root name)))
      | .ok (some md) =>
          if mget md "type" ≠ some "project" then
            .error (.invalidRootType (osJoin root (osJoin root name)))
          else
            match processList ig sub (osJoin root (osJoin root name)) sub with
            | .error e => .error e
            | .ok res =>
                match load_schema_loop ig E root rest with
                | .error e => .error e
                | .ok res2 =>
                    .ok (FolderNode.mk .project (osJoin root (osJoin root name)) md
                          (get_files_in_folder ig sub (osJoin root (osJoin root name)))
                          res.1 :: res2.1,
                      ("Project",
                        FolderNode.mk .project (osJoin root (osJoin root name)) md
                          (get_files_in_folder ig sub (osJoin root (osJoin root name)))
                          res.1) :: (res.2 ++ res2.2)) := rfl

/-- Every pair the root loop registers is either a project node under the
key `"Project"` that is also among the returned project nodes, or an
entity node keyed by its own entity-type. -/
theorem load_loop_pairs (ig : List String) (E : List Entry) (root : String)
    (dirs : List Entry) (res : List FolderNode × List (String × FolderNode))
    (h : load_schema_loop ig E root dirs = .ok res) :
    ∀ pr ∈ res.2,
      (pr.1 = "Project" ∧ pr.2.ntype = NodeType.project ∧ pr.2 ∈ res.1) ∨
      (pr.2.ntype = NodeType.shotgunEntity ∧ pr.1 = pr.2.get_entity_type) := by
  induction dirs generalizing res with
  | nil =>
    rw [load_loop_nil] at h
    injection h with h2
    subst h2
    intro pr hpr
    simp at hpr
  | cons e rest ih =>
    cases e with
    | file n c =>
      rw [load_loop_file] at h
      exact ih res h
    | dir name sub =>
      rw [load_loop_dir] at h
      cases hm : read_metadata E (osJoin root (osJoin root name)) name with
      | error e2 => simp [hm] at h
      | ok mdOpt =>
        cases mdOpt with
        | none => simp [hm] at h
        | some md =>
          simp only [hm] at h
          by_cases ht : mget md "type" ≠ some "project"
          · rw [if_pos ht] at h
            simp at h
          · rw [if_neg ht] at h
            cases hl : processList ig sub (osJoin root (osJoin root name)) sub with
            | error e2 => simp [hl] at h
            | ok res1 =>
              simp only [hl] at h
              cases hr : load_schema_loop ig E root rest with
              | error e2 => simp [hr] at h
              | ok res2 =>
                simp only [hr] at h
                injection h with h2
                subst h2
                intro pr hpr
                rcases List.mem_cons.mp hpr with hhead | htail
                · subst hhead
                  exact Or.inl ⟨rfl, rfl, List.mem_cons_self _ _⟩
                · rcases List.mem_append.mp htail with h1 | h2
                  · exact Or.inr
                      (processList_pairs ig sub (osJoin root (osJoin root name)) sub res1 hl pr h1)
                  · rcases ih res2 hr pr h2 with ⟨hk, hp, hm2⟩ | hent
                    · exact Or.inl ⟨hk, hp, List.mem_cons_of_mem _ hm2⟩
                    · exact Or.inr hent

/-- Every project node the root loop returns is a project-typed node
registered under `"Project"`. -/
theorem load_loop_projects (ig : List String) (E : List Entry) (root : String)
    (dirs : List Entry) (res : List FolderNode × List (String × FolderNode))
    (h : load_schema_loop ig E root dirs = .ok res) :
    ∀ q ∈ res.1, q.ntype = NodeType.project ∧ ("Project", q) ∈ res.2 := by
  induction dirs generalizing res with
  | nil =>
    rw [load_loop_nil] at h
    injection h with h2
    subst h2
    intro q hq
    simp at hq
  | cons e rest ih =>
    cases e with
    | file n c =>
      rw [load_loop_file] at h
      exact ih res h
    | dir name sub =>
      rw [load_loop_dir] at h
      cases hm : read_metadata E (osJoin root (osJoin root name)) name with
      | error e2 => simp [hm] at h
      | ok mdOpt =>
        cases mdOpt with
        | none => simp [hm] at h
        | some md =>
          simp only [hm] at h
          by_cases ht : mget md "type" ≠ some "project"
          · rw [if_pos ht] at h
            simp at h
          · rw [if_neg ht] at h
            cases hl : processList ig sub (osJoin root (osJoin root name)) sub with
            | error e2 => simp [hl] at h
            | ok res1 =>
              simp only [hl] at h
              cases hr : load_schema_loop ig E root rest with
              | error e2 => simp [hr] at h
              | ok res2 =>
                simp only [hr] at h
                injection h with h2
                subst h2
                intro q hq
                rcases List.mem_cons.mp hq with hhead | htail
                · subst hhead
                  exact ⟨rfl, List.mem_cons_self _ _⟩
                · rcases ih res2 hr q htail with ⟨hp, hm2⟩
                  exact ⟨hp, List.mem_cons_of_mem _ (List.mem_append_right _ hm2)⟩

/-- A successful root pass certifies that every top-level directory
carried a parsed metadata mapping whose `type` is exactly `project`. -/
theorem load_loop_ok_types (ig : List String) (E : List Entry) (root : String)
    (dirs : List Entry) (res : List FolderNode × List (String × FolderNode))
    (h : load_schema_loop ig E root dirs = .ok res) :
    ∀ name sub, Entry.dir name sub ∈ dirs →
      ∃ md, read_metadata E (osJoin root (osJoin root name)) name = .ok (some md) ∧
        mget md "type" = some "project" := by
  induction dirs generalizing res with
  | nil =>
    intro name sub hmem
    simp at hmem
  | cons e rest ih =>
    cases e with
    | file n c =>
      rw [load_loop_file] at h
      intro name sub hmem
      rcases List.mem_cons.mp hmem with hhead | htail
      · cases hhead
      · exact ih res h name sub htail
    | dir name0 sub0 =>
      rw [load_loop_dir] at h
      cases hm : read_metadata E (osJoin root (osJoin root name0)) name0 with
      | error e2 => simp [hm] at h
      | ok mdOpt =>
        cases mdOpt with
        | none => simp [hm] at h
        | some md =>
          simp only [hm] at h
          by_cases ht : mget md "type" ≠ some "project"
          · rw [if_pos ht] at h
            simp at h
          · rw [if_neg ht] at h
            cases hl : processList ig sub0 (osJoin root (osJoin root name0)) sub0 with
            | error e2 => simp [hl] at h
            | ok res1 =>
              simp only [hl] at h
              cases hr : load_schema_loop ig E root rest with
              | error e2 => simp [hr] at h
              | ok res2 =>
                intro name sub hmem
                rcases List.mem_cons.mp hmem with hhead | htail
                · injection hhead with hn hs
                  subst hn
                  exact ⟨md, hm, not_not.mp ht⟩
                · exact ih res2 hr name sub htail

/-! ### Ignore patterns only affect payload files

Stripping the (recursively) attached payload files from a build result
makes it independent of the ignore-pattern set: which directories become
nodes, their types, paths, metadata, the index pairs and any raised error
are all unchanged. -/

mutual
/-- A node with every payload-file attachment removed, recursively. -/
def stripNode : FolderNode → FolderNode
  | .mk nt p md _ cs => .mk nt p md [] (stripList cs)

def stripList : List FolderNode → List FolderNode
  | [] => []
  | c :: cs => stripNode c :: stripList cs
end

theorem stripList_append (a b : List FolderNode) :
    stripList (a ++ b) = stripList a ++ stripList b := by
  induction a with
  | nil => rfl
  | cons x xs ih => simp [stripList, ih]

/-- Strip the files from a walk result (nodes and index pairs alike). -/
def stripResult :
    Except TankError (List FolderNode × List (String × FolderNode)) →
      Except TankError (List FolderNode × List (String × FolderNode))
  | .error e => .error e
  | .ok res => .ok (stripList res.1, res.2.map (fun pr => (pr.1, stripNode pr.2)))

mutual
theorem processEntry_strip (ig1 ig2 : List String) (E : List Entry) (p : String)
    (e : Entry) :
    stripResult (processEntry ig1 E p e) = stripResult (processEntry ig2 E p e) := by
  cases e with
  | file n c => rw [processEntry_file, processEntry_file]
  | dir name sub =>
    cases hh : strStartsWith name "." with
    | true =>
      rw [processEntry_hidden ig1 E p name sub hh, processEntry_hidden ig2 E p name sub hh]
    | false =>
      have e1 := processEntry_dir ig1 E p name sub hh
      have e2 := processEntry_dir ig2 E p name sub hh
      cases hm : read_metadata E (osJoin p name) name with
      | error er =>
        simp only [hm] at e1 e2
        rw [e1, e2]
      | ok mdOpt =>
        simp only [hm] at e1 e2
        cases hs : nodeSpec (osJoin p name) mdOpt with
        | error er =>
          simp only [hs] at e1 e2
          rw [e1, e2]
        | ok nt =>
          simp only [hs] at e1 e2
          have hrec := processList_strip ig1 ig2 sub (osJoin p name) sub
          cases hl1 : processList ig1 sub (osJoin p name) sub with
          | error er =>
            cases hl2 : processList ig2 sub (osJoin p name) sub with
            | error er2 =>
              rw [hl1, hl2] at hrec
              simp only [stripResult] at hrec
              injection hrec with h2
              subst h2
              simp only [hl1] at e1
              simp only [hl2] at e2
              rw [e1, e2]
            | ok r2 =>
              rw [hl1, hl2] at hrec
              simp [stripResult] at hrec
          | ok r1 =>
            cases hl2 : processList ig2 sub (osJoin p name) sub with
            | error er2 =>
              rw [hl1, hl2] at hrec
              simp [stripResult] at hrec
            | ok r2 =>
              rw [hl1, hl2] at hrec
              simp only [stripResult] at hrec
              injection hrec with h2
              rw [Prod.mk.injEq] at h2
              obtain ⟨hn, hp2⟩ := h2
              simp only [hl1] at e1
              simp only [hl2] at e2
              rw [e1, e2]
              simp only [stripResult]
              by_cases hnt : nt.1 = NodeType.shotgunEntity
              · simp only [if_pos hnt, List.map_append, List.map_cons, List.map_nil]
                simp [stripList, stripNode, FolderNode.get_entity_type,
                  FolderNode.metadata, hn, hp2]
              · simp only [if_neg hnt, List.nil_append]
                simp [stripList, stripNode, hn, hp2]

theorem processList_strip (ig1 ig2 : List String) (E : List Entry) (p : String)
    (l : List Entry) :
    stripResult (processList ig1 E p l) = stripResult (processList ig2 E p l) := by
  cases l with
  | nil => rfl
  | cons e rest =>
    have c1 := processList_cons ig1 E p e rest
    have c2 := processList_cons ig2 E p e rest
    have h1 := processEntry_strip ig1 ig2 E p e
    have h2 := processList_strip ig1 ig2 E p rest
    cases he1 : processEntry ig1 E p e with
    | error er =>
      cases he2 : processEntry ig2 E p e with
      | error er2 =>
        rw [he1, he2] at h1
        simp only [stripResult] at h1
        injection h1 with h1e
        subst h1e
        simp only [he1] at c1
        simp only [he2] at c2
        rw [c1, c2]
      | ok r2 =>
        rw [he1, he2] at h1
        simp [stripResult] at h1
    | ok r1 =>
      cases he2 : processEntry ig2 E p e with
      | error er2 =>
        rw [he1, he2] at h1
        simp [stripResult] at h1
      | ok r2 =>
        rw [he1, he2] at h1
        simp only [stripResult] at h1
        injection h1 with h1e
        rw [Prod.mk.injEq] at h1e
        obtain ⟨ha, hb⟩ := h1e
        simp only [he1] at c1
        simp only [he2] at c2
        cases hr1 : processList ig1 E p rest with
        | error er =>
          cases hr2 : processList ig2 E p rest with
          | error er2 =>
            rw [hr1, hr2] at h2
            simp only [stripResult] at h2
            injection h2 with h2e
            subst h2e
            simp only [hr1] at c1
            simp only [hr2] at c2
            rw [c1, c2]
          | ok s2 =>
            rw [hr1, hr2] at h2
            simp [stripResult] at h2
        | ok s1 =>
          cases hr2 : processList ig2 E p rest with
          | error er2 =>
            rw [hr1, hr2] at h2
            simp [stripResult] at h2
          | ok s2 =>
            rw [hr1, hr2] at h2
            simp only [stripResult] at h2
            injection h2 with h2e
            rw [Prod.mk.injEq] at h2e
            obtain ⟨hc, hd⟩ := h2e
            simp only [hr1] at c1
            simp only [hr2] at c2
            rw [c1, c2]
            simp only [stripResult, stripList_append, List.map_append, ha, hb, hc, hd]
end

/-- The root pass is likewise file-strip invariant under a change of
ignore patterns: projects, subtrees, index pairs and errors agree. -/
theorem load_loop_strip (ig1 ig2 : List String) (E : List Entry) (root : String)
    (dirs : List Entry) :
    stripResult (load_schema_loop ig1 E root dirs) =
      stripResult (load_schema_loop ig2 E root dirs) := by
  induction dirs with
  | nil => rfl
  | cons e rest ih =>
    cases e with
    | file n c =>
      rw [load_loop_file, load_loop_file]
      exact ih
    | dir name sub =>
      have e1 := load_loop_dir ig1 E root name sub rest
      have e2 := load_loop_dir ig2 E root name sub rest
      cases hm : read_metadata E (osJoin root (osJoin root name)) name with
      | error er =>
        simp only [hm] at e1 e2
        rw [e1, e2]
      | ok mdOpt =>
        cases mdOpt with
        | none =>
          simp only [hm] at e1 e2
          rw [e1, e2]
        | some md =>
          simp only [hm] at e1 e2
          by_cases ht : mget md "type" ≠ some "project"
          · rw [if_pos ht] at e1 e2
            rw [e1, e2]
          · rw [if_neg ht] at e1 e2
            have hrec := processList_strip ig1 ig2 sub (osJoin root (osJoin root name)) sub
            cases hl1 : processList ig1 sub (osJoin root (osJoin root name)) sub with
            | error er =>
              cases hl2 : processList ig2 sub (osJoin root (osJoin root name)) sub with
              | error er2 =>
                rw [hl1, hl2] at hrec
                simp only [stripResult] at hrec
                injection hrec with hre
                subst hre
                simp only [hl1] at e1
                simp only [hl2] at e2
                rw [e1, e2]
              | ok r2 =>
                rw [hl1, hl2] at hrec
                simp [stripResult] at hrec
            | ok r1 =>
              cases hl2 : processList ig2 sub (osJoin root (osJoin root name)) sub with
              | error er2 =>
                rw [hl1, hl2] at hrec
                simp [stripResult] at hrec
              | ok r2 =>
                rw [hl1, hl2] at hrec
                simp only [stripResult] at hrec
                injection hrec with hre
                rw [Prod.mk.injEq] at hre
                obtain ⟨hn, hp2⟩ := hre
                simp only [hl1] at e1
                simp only [hl2] at e2
                cases hr1 : load_schema_loop ig1 E root rest with
                | error er =>
                  cases hr2 : load_schema_loop ig2 E root rest with
                  | error er2 =>
                    rw [hr1, hr2] at ih
                    simp only [stripResult] at ih
                    injection ih with ihe
                    subst ihe
                    simp only [hr1] at e1
                    simp only [hr2] at e2
                    rw [e1, e2]
                  | ok s2 =>
                    rw [hr1, hr2] at ih
                    simp [stripResult] at ih
                | ok s1 =>
                  cases hr2 : load_schema_loop ig2 E root rest with
                  | error er2 =>
                    rw [hr1, hr2] at ih
                    simp [stripResult] at ih
                  | ok s2 =>
                    rw [hr1, hr2] at ih
                    simp only [stripResult] at ih
                    injection ih with ihe
                    rw [Prod.mk.injEq] at ihe
                    obtain ⟨hc, hd⟩ := ihe
                    simp only [hr1] at e1
                    simp only [hr2] at e2
                    rw [e1, e2]
                    simp only [stripResult, List.map_cons, List.map_append,
                      stripList, stripNode, hn, hp2, hc, hd]

/-! ### Claim theorems -/

/-- C5: for every path given to the metadata reader: if the sibling file
`<path>.yml` does not exist (no entry of that name), the reader returns
absent (`ok none`) without raising; if the file exists but cannot be
parsed, the reader fails with a fatal `configParse` error whose message
carries the offending file path; if the file exists and parses, the parsed
key/value mapping is returned. -/
theorem C5_read_metadata (E : List Entry) (fullPath name : String) :
    (lookupEntry E (name ++ ".yml") = none →
      read_metadata E fullPath name = .ok none) ∧
    (∀ nm lines detail,
      lookupEntry E (name ++ ".yml") = some (.file nm ⟨lines, .error detail⟩) →
      read_metadata E fullPath name = .error (.configParse fullPath detail) ∧
        (fullPath ++ ".yml").data <:+:
          (TankError.message (.configParse fullPath detail)).data) ∧
    (∀ nm lines md,
      lookupEntry E (name ++ ".yml") = some (.file nm ⟨lines, .ok md⟩) →
      read_metadata E fullPath name = .ok md) := by
  refine ⟨?_, ?_, ?_⟩
  · intro h
    simp [read_metadata, h]
  · intro nm lines detail h
    refine ⟨by simp [read_metadata, h], ?_⟩
    refine ⟨"Cannot load config file '".data, ("'. Error: " ++ detail).data, ?_⟩
    simp [TankError.message, String.data_append]
  · intro nm lines md h
    simp [read_metadata, h]

/-- C5 witness: a concrete absent sidecar, a concrete failing sidecar and a
concrete parsed sidecar. -/
theorem C5_witness :
    read_metadata [Entry.dir "a" []] "/r/a" "a" = .ok none ∧
    read_metadata [Entry.file "b.yml" ⟨[], .error "bad"⟩] "/r/b" "b" =
      .error (.configParse "/r/b" "bad") ∧
    read_metadata [Entry.file "c.yml" ⟨[], .ok (some [("type", "static")])⟩] "/r/c" "c" =
      .ok (some [("type", "static")]) :=
  ⟨(C5_read_metadata [Entry.dir "a" []] "/r/a" "a").1 rfl,
   ((C5_read_metadata [Entry.file "b.yml" ⟨[], .error "bad"⟩] "/r/b" "b").2.1
      "b.yml" [] "bad" rfl).1,
   (C5_read_metadata [Entry.file "c.yml" ⟨[], .ok (some [("type", "static")])⟩]
      "/r/c" "c").2.2 "c.yml" [] (some [("type", "static")]) rfl⟩

/-- A line of `ignore_files` as the specification words it: everything
from the first `#` onward removed, whitespace trimmed. -/
def ignoreLineSpec (line : String) : String :=
  pyStrip ⟨line.data.takeWhile (fun c => c ≠ '#')⟩

/-- The ignore-pattern load as the specification words it: per line, strip
the comment, trim, keep the non-empty results in order. -/
def ignorePatternsSpec (lines : List String) : List String :=
  (lines.map ignoreLineSpec).filter (fun l => l ≠ "")

theorem takeWhile_no_hash (l : List Char) (h : l.contains '#' = false) :
    l.takeWhile (fun c => c ≠ '#') = l := by
  induction l with
  | nil => rfl
  | cons c cs ih =>
    rw [List.contains_cons] at h
    simp only [Bool.or_eq_false_iff] at h
    obtain ⟨h1, h2⟩ := h
    have hc : c ≠ '#' := by
      intro he
      subst he
      simp at h1
    rw [List.takeWhile_cons_of_pos (by simpa using hc)]
    rw [ih h2]

theorem processIgnoreLine_spec (line : String) :
    processIgnoreLine line =
      if ignoreLineSpec line = "" then none else some (ignoreLineSpec line) := by
  unfold processIgnoreLine ignoreLineSpec
  cases hc : line.data.contains '#' with
  | true => simp
  | false =>
    have : (⟨line.data.takeWhile (fun c => c ≠ '#')⟩ : String) = line := by
      rw [takeWhile_no_hash line.data hc]
    rw [this]
    simp

theorem filterMap_ignore_lines (lines : List String) :
    lines.filterMap processIgnoreLine = ignorePatternsSpec lines := by
  induction lines with
  | nil => rfl
  | cons l ls ih =>
    rw [List.filterMap_cons, processIgnoreLine_spec]
    by_cases h : ignoreLineSpec l = ""
    · simp only [if_pos h]
      rw [ih]
      simp [ignorePatternsSpec, List.filter_cons, h]
    · simp only [if_neg h]
      rw [ih]
      simp [ignorePatternsSpec, List.filter_cons, h]

/-- C6: loading the ignore patterns from a root returns, for each line of
`ignore_files` when present, the line with everything from the first `#`
removed and whitespace trimmed, keeping the non-empty results in order;
when no entry of that name exists it returns the empty sequence and raises
no error. -/
theorem C6_ignore_files (E : List Entry) :
    (lookupEntry E "ignore_files" = none → read_ignore_files E = .ok []) ∧
    (∀ nm content, lookupEntry E "ignore_files" = some (.file nm content) →
      read_ignore_files E = .ok (ignorePatternsSpec content.lines)) := by
  constructor
  · intro h
    simp [read_ignore_files, h]
  · intro nm content h
    simp [read_ignore_files, h, filterMap_ignore_lines]

/-- C6 witness: a concrete comment-bearing file and a concrete absent
file. -/
theorem C6_witness :
    read_ignore_files
      [Entry.file "ignore_files" ⟨["*.bak  # backup files", "   ", "*.tmp"], .ok none⟩] =
      .ok ["*.bak", "*.tmp"] ∧
    read_ignore_files [Entry.dir "proj" []] = .ok [] := by
  constructor
  · have h := (C6_ignore_files
      [Entry.file "ignore_files" ⟨["*.bak  # backup files", "   ", "*.tmp"], .ok none⟩]).2
      "ignore_files" ⟨["*.bak  # backup files", "   ", "*.tmp"], .ok none⟩ rfl
    rw [h]
    decide
  · exact (C6_ignore_files [Entry.dir "proj" []]).1 rfl

/-- C1: for every immediate subdirectory of the schema root processed by
the build (the head of the remaining root-loop worklist): missing sidecar
metadata fails the build with the missing-root-metadata error; present
metadata whose `type` is anything but `"project"` fails it with the
invalid-root-type error; and a successful root pass certifies that every
top-level subdirectory carried metadata of type `"project"`. -/
theorem C1_root_validation (ig : List String) (E : List Entry) (root name : String)
    (sub rest : List Entry) :
    (read_metadata E (osJoin root (osJoin root name)) name = .ok none →
      load_schema_loop ig E root (.dir name sub :: rest) =
        .error (.missingRootMetadata (osJoin root (osJoin root name)))) ∧
    (∀ md, read_metadata E (osJoin root (osJoin root name)) name = .ok (some md) →
      mget md "type" ≠ some "project" →
      load_schema_loop ig E root (.dir name sub :: rest) =
        .error (.invalidRootType (osJoin root (osJoin root name)))) ∧
    (∀ res, load_schema ig E root = .ok res →
      ∀ name2 sub2, Entry.dir name2 sub2 ∈ get_sub_directories E →
        ∃ md, read_metadata E (osJoin root (osJoin root name2)) name2 = .ok (some md) ∧
          mget md "type" = some "project") := by
  refine ⟨?_, ?_, ?_⟩
  · intro h
    rw [load_loop_dir]
    simp only [h]
  · intro md h ht
    rw [load_loop_dir]
    simp only [h]
    rw [if_pos ht]
  · intro res h name2 sub2 hmem
    exact load_loop_ok_types ig E root (get_sub_directories E) res h name2 sub2 hmem

/-- C1 witness: a top-level directory without a sidecar fails with the
missing-root-metadata error; one with `type: shot` fails with the
invalid-root-type error; a successful load certifies the `project` type of
a concrete top-level directory. -/
theorem C1_witness :
    load_schema_loop [] [Entry.dir "a" []] "/r" [Entry.dir "a" []] =
      .error (.missingRootMetadata "/r/a") ∧
    load_schema_loop []
        [Entry.dir "b" [], Entry.file "b.yml" ⟨[], .ok (some [("type", "shot")])⟩] "/r"
        [Entry.dir "b" []] =
      .error (.invalidRootType "/r/b") ∧
    ∃ md,
      read_metadata
          [Entry.dir "c" [], Entry.file "c.yml" ⟨[], .ok (some [("type", "project")])⟩]
          (osJoin "/r" (osJoin "/r" "c")) "c" = .ok (some md) ∧
        mget md "type" = some "project" := by
  refine ⟨?_, ?_, ?_⟩
  · exact (C1_root_validation [] [Entry.dir "a" []] "/r" "a" [] []).1 rfl
  · exact (C1_root_validation []
      [Entry.dir "b" [], Entry.file "b.yml" ⟨[], .ok (some [("type", "shot")])⟩]
      "/r" "b" [] []).2.1 [("type", "shot")] rfl (by decide)
  · exact (C1_root_validation []
      [Entry.dir "c" [], Entry.file "c.yml" ⟨[], .ok (some [("type", "project")])⟩]
      "/r" "c" [] []).2.2
      ([FolderNode.mk .project "/r/c" [("type", "project")] [] []],
        [("Project", FolderNode.mk .project "/r/c" [("type", "project")] [] [])])
      rfl "c" [] (List.mem_singleton.mpr rfl)

/-- C2: a non-root directory whose truthy sidecar mapping carries a `type`
outside the recognized set — with a missing `type` key read as
`"undefined"` — aborts the walk with the unknown-type error, and the error
message contains the offending directory path. -/
theorem C2_unknown_type (ig : List String) (E : List Entry) (p name : String)
    (sub rest : List Entry) (md : List (String × String)) (t : String)
    (hh : strStartsWith name "." = false)
    (hm : read_metadata E (osJoin p name) name = .ok (some md))
    (hne : md ≠ [])
    (ht : t = (mget md "type").getD "undefined")
    (hunk : t ∉ knownTypes) :
    processList ig E p (.dir name sub :: rest) =
      .error (.unknownSchemaType (osJoin p name) t) ∧
    (osJoin p name).data <:+:
      (TankError.message (.unknownSchemaType (osJoin p name) t)).data ∧
    (∀ (rootE : List Entry) (rootPath name2 : String) (sub2 rest2 : List Entry)
        (md2 : List (String × String)) (er : TankError),
      read_metadata rootE (osJoin rootPath (osJoin rootPath name2)) name2 =
        .ok (some md2) →
      mget md2 "type" = some "project" →
      processList ig sub2 (osJoin rootPath (osJoin rootPath name2)) sub2 = .error er →
      load_schema_loop ig rootE rootPath (.dir name2 sub2 :: rest2) = .error er) := by
  refine ⟨?_, ?_, ?_⟩
  · rw [processList_cons]
    have hd := processEntry_dir ig E p name sub hh
    simp only [hm] at hd
    have hns : nodeSpec (osJoin p name) (some md) =
        .error (.unknownSchemaType (osJoin p name) t) := by
      subst ht
      simp only [knownTypes, List.mem_cons, List.not_mem_nil, or_false, not_or] at hunk
      obtain ⟨h1, h2, h3, h4, h5, h6⟩ := hunk
      have hemp : md.isEmpty = false := by
        cases md with
        | nil => exact absurd rfl hne
        | cons kv tl => rfl
      simp only [nodeSpec, hemp, Bool.false_eq_true, if_false, h1, h2, h3, h4, h5, h6]
    simp only [hns] at hd
    rw [hd]
  · exact ⟨"Error in ".data, (". Unknown metadata type '" ++ t ++ "'").data,
      by simp [TankError.message, String.data_append]⟩
  · intro rootE rootPath name2 sub2 rest2 md2 er hm2 ht2 hpe
    rw [load_loop_dir]
    simp only [hm2]
    rw [if_neg (by simp [ht2])]
    simp only [hpe]

/-- C2 witness: `type: bogus` and a metadata mapping without a `type` key
(read as `"undefined"`) both abort with the unknown-type error. -/
theorem C2_witness :
    processList [] [Entry.dir "d" [], Entry.file "d.yml" ⟨[], .ok (some [("type", "bogus")])⟩]
        "/r/p" [Entry.dir "d" []] =
      .error (.unknownSchemaType "/r/p/d" "bogus") ∧
    processList [] [Entry.dir "e" [], Entry.file "e.yml" ⟨[], .ok (some [("color", "red")])⟩]
        "/r/p" [Entry.dir "e" []] =
      .error (.unknownSchemaType "/r/p/e" "undefined") ∧
    load_schema_loop []
        [Entry.dir "top"
            [Entry.dir "d" [], Entry.file "d.yml" ⟨[], .ok (some [("type", "bogus")])⟩],
          Entry.file "top.yml" ⟨[], .ok (some [("type", "project")])⟩] "/r"
        [Entry.dir "top"
            [Entry.dir "d" [], Entry.file "d.yml" ⟨[], .ok (some [("type", "bogus")])⟩]] =
      .error (.unknownSchemaType "/r/top/d" "bogus") := by
  refine ⟨?_, ?_, ?_⟩
  · exact (C2_unknown_type []
      [Entry.dir "d" [], Entry.file "d.yml" ⟨[], .ok (some [("type", "bogus")])⟩]
      "/r/p" "d" [] [] [("type", "bogus")] "bogus" rfl rfl (by decide) (by decide)
      (by decide)).1
  · exact (C2_unknown_type []
      [Entry.dir "e" [], Entry.file "e.yml" ⟨[], .ok (some [("color", "red")])⟩]
      "/r/p" "e" [] [] [("color", "red")] "undefined" rfl rfl (by decide) (by decide)
      (by decide)).1
  · exact (C2_unknown_type []
      [Entry.dir "d" [], Entry.file "d.yml" ⟨[], .ok (some [("type", "bogus")])⟩]
      "/r/top" "d" [] [Entry.file "d.yml" ⟨[], .ok (some [("type", "bogus")])⟩]
      [("type", "bogus")] "bogus" rfl rfl (by decide) (by decide) (by decide)).2.2
      [Entry.dir "top"
          [Entry.dir "d" [], Entry.file "d.yml" ⟨[], .ok (some [("type", "bogus")])⟩],
        Entry.file "top.yml" ⟨[], .ok (some [("type", "project")])⟩]
      "/r" "top"
      [Entry.dir "d" [], Entry.file "d.yml" ⟨[], .ok (some [("type", "bogus")])⟩]
      [] [("type", "project")] (.unknownSchemaType "/r/top/d" "bogus") rfl rfl
      ((C2_unknown_type []
        [Entry.dir "d" [], Entry.file "d.yml" ⟨[], .ok (some [("type", "bogus")])⟩]
        "/r/top" "d" [] [Entry.file "d.yml" ⟨[], .ok (some [("type", "bogus")])⟩]
        [("type", "bogus")] "bogus" rfl rfl (by decide) (by decide) (by decide)).1)

/-- C4: in every scanned directory, a file whose name ends in `.yml` or
matches a loaded ignore pattern is never attached as a payload file, and
every other regular file is attached; concretely, with `ignore_files`
containing the line `*.bak  # backup files`, a `notes.bak` is never
attached while a `notes.txt` is.  (Entry names, as produced by
`os.listdir`, never begin with a slash.) -/
theorem C4_file_filtering (ig : List String) (entries : List Entry) (p name : String)
    (c : FileContent)
    (hmem : Entry.file name c ∈ entries)
    (hnames : ∀ e ∈ entries, strStartsWith (entryName e) "/" = false) :
    ((strEndsWith name ".yml" = true ∨ ∃ pat ∈ ig, fnmatch name pat = true) →
      osJoin p name ∉ get_files_in_folder ig entries p) ∧
    ((strEndsWith name ".yml" = false ∧ ∀ pat ∈ ig, fnmatch name pat = false) →
      osJoin p name ∈ get_files_in_folder ig entries p) ∧
    (read_ignore_files
        [Entry.file "ignore_files" ⟨["*.bak  # backup files"], .ok none⟩] =
          .ok ["*.bak"] ∧
      get_files_in_folder ["*.bak"]
          [Entry.file "notes.bak" ⟨[], .ok none⟩, Entry.file "notes.txt" ⟨[], .ok none⟩]
          "/d" = ["/d/notes.txt"]) := by
  have hslash : strStartsWith name "/" = false := hnames (Entry.file name c) hmem
  refine ⟨?_, ?_, by decide, by decide⟩
  · intro hbad hin
    obtain ⟨e, he, hfe⟩ := List.mem_filterMap.mp hin
    by_cases hig : ig.any (fun pat => fnmatch (entryName e) pat) = true
    · rw [if_pos hig] at hfe
      cases hfe
    · rw [if_neg hig] at hfe
      cases e with
      | dir n2 s2 => cases hfe
      | file n2 c2 =>
        by_cases hend : strEndsWith (osJoin p (entryName (Entry.file n2 c2))) ".yml" = true
        · rw [if_pos hend] at hfe
          cases hfe
        · rw [if_neg hend] at hfe
          injection hfe with hfe2
          have hn2 : n2 = name := by
            have hs2 : strStartsWith (entryName (Entry.file n2 c2)) "/" = false :=
              hnames (Entry.file n2 c2) he
            exact osJoin_inj hs2 hslash hfe2
          subst hn2
          cases hbad with
          | inl hyml =>
            apply hend
            simp only [entryName]
            rw [endsYml_osJoin hslash]
            exact hyml
          | inr hpat =>
            obtain ⟨pat, hp, hf⟩ := hpat
            have := (List.any_eq_false.mp (by simpa using hig)) pat hp
            simp only [entryName] at this
            exact absurd hf (by simp [this])
  · intro hgood
    obtain ⟨hyml, hpat⟩ := hgood
    apply List.mem_filterMap.mpr
    refine ⟨Entry.file name c, hmem, ?_⟩
    have hig : (ig.any (fun pat => fnmatch (entryName (Entry.file name c)) pat)) = false := by
      apply List.any_eq_false.mpr
      intro pat hp
      simp only [entryName]
      simp [hpat pat hp]
    rw [if_neg (by simp [hig])]
    have hend : strEndsWith (osJoin p (entryName (Entry.file name c))) ".yml" = false := by
      simp only [entryName]
      rw [endsYml_osJoin hslash]
      exact hyml
    rw [if_neg (by simp [hend])]
    rfl

/-- C4 witness: in a directory holding `notes.bak`, `notes.txt` and a
sidecar `x.yml`, with the single pattern `*.bak`, the `.bak` and `.yml`
files are not attached and the `.txt` file is. -/
theorem C4_witness :
    osJoin "/d" "notes.bak" ∉
      get_files_in_folder ["*.bak"]
        [Entry.file "notes.bak" ⟨[], .ok none⟩, Entry.file "notes.txt" ⟨[], .ok none⟩,
          Entry.file "x.yml" ⟨[], .ok none⟩] "/d" ∧
    osJoin "/d" "notes.txt" ∈
      get_files_in_folder ["*.bak"]
        [Entry.file "notes.bak" ⟨[], .ok none⟩, Entry.file "notes.txt" ⟨[], .ok none⟩,
          Entry.file "x.yml" ⟨[], .ok none⟩] "/d" ∧
    osJoin "/d" "x.yml" ∉
      get_files_in_folder ["*.bak"]
        [Entry.file "notes.bak" ⟨[], .ok none⟩, Entry.file "notes.txt" ⟨[], .ok none⟩,
          Entry.file "x.yml" ⟨[], .ok none⟩] "/d" := by
  refine ⟨?_, ?_, ?_⟩
  · exact (C4_file_filtering ["*.bak"]
      [Entry.file "notes.bak" ⟨[], .ok none⟩, Entry.file "notes.txt" ⟨[], .ok none⟩,
        Entry.file "x.yml" ⟨[], .ok none⟩] "/d" "notes.bak" ⟨[], .ok none⟩
      (by simp) (by intro e he; fin_cases he <;> decide)).1
      (Or.inr ⟨"*.bak", by simp, by decide⟩)
  · exact (C4_file_filtering ["*.bak"]
      [Entry.file "notes.bak" ⟨[], .ok none⟩, Entry.file "notes.txt" ⟨[], .ok none⟩,
        Entry.file "x.yml" ⟨[], .ok none⟩] "/d" "notes.txt" ⟨[], .ok none⟩
      (by simp) (by intro e he; fin_cases he <;> decide)).2.1
      ⟨by decide, by intro pat hp; fin_cases hp; decide⟩
  · exact (C4_file_filtering ["*.bak"]
      [Entry.file "notes.bak" ⟨[], .ok none⟩, Entry.file "notes.txt" ⟨[], .ok none⟩,
        Entry.file "x.yml" ⟨[], .ok none⟩] "/d" "x.yml" ⟨[], .ok none⟩
      (by simp) (by intro e he; fin_cases he <;> decide)).1
      (Or.inl (by decide))

/-- C10: hidden files (name starting with a dot) are attached like any
other payload file when they are not `.yml` files and match no ignore
pattern: the hidden-name exclusion applies to directories only. -/
theorem C10_hidden_files (ig : List String) (entries : List Entry) (p name : String)
    (c : FileContent)
    (hmem : Entry.file name c ∈ entries)
    (hnames : ∀ e ∈ entries, strStartsWith (entryName e) "/" = false)
    (_hhidden : strStartsWith name "." = true)
    (hyml : strEndsWith name ".yml" = false)
    (hpat : ∀ pat ∈ ig, fnmatch name pat = false) :
    osJoin p name ∈ get_files_in_folder ig entries p ∧
    (∀ sub2 name2, strStartsWith name2 "." = true →
      Entry.dir name2 sub2 ∉ get_sub_directories entries) := by
  constructor
  · exact (C4_file_filtering ig entries p name c hmem hnames).2.1 ⟨hyml, hpat⟩
  · intro sub2 name2 hh2 hin
    have := (List.mem_filter.mp hin).2
    simp only [hh2] at this
    simp at this

/-- C10 witness: the hidden file `.hidden` is attached while the hidden
directory `.git` is not enumerated. -/
theorem C10_witness :
    osJoin "/d" ".hidden" ∈
      get_files_in_folder []
        [Entry.file ".hidden" ⟨[], .ok none⟩, Entry.dir ".git" []] "/d" ∧
    Entry.dir ".git" [] ∉
      get_sub_directories [Entry.file ".hidden" ⟨[], .ok none⟩, Entry.dir ".git" []] := by
  have h := C10_hidden_files [] [Entry.file ".hidden" ⟨[], .ok none⟩, Entry.dir ".git" []]
    "/d" ".hidden" ⟨[], .ok none⟩ (by simp)
    (by intro e he; fin_cases he <;> decide) (by decide) (by decide)
    (by intro pat hp; simp at hp)
  exact ⟨h.1, h.2 [] ".git" (by decide)⟩

/-- C7: subdirectory enumeration keeps exactly the non-hidden directory
entries — no file is ever enumerated — and the ignore-pattern set is never
consulted for it: two builds differing only in their ignore patterns agree
on everything but the attached payload files (node structure, index pairs
and errors included), in the recursive walk as well as in the root pass. -/
theorem C7_subdir_enumeration (entries : List Entry) :
    (∀ name sub, Entry.dir name sub ∈ get_sub_directories entries ↔
      (Entry.dir name sub ∈ entries ∧ strStartsWith name "." = false)) ∧
    (∀ n c, Entry.file n c ∉ get_sub_directories entries) ∧
    (∀ ig1 ig2 E p l,
      stripResult (processList ig1 E p l) = stripResult (processList ig2 E p l)) ∧
    (∀ ig1 ig2 E root dirs,
      stripResult (load_schema_loop ig1 E root dirs) =
        stripResult (load_schema_loop ig2 E root dirs)) := by
  refine ⟨?_, ?_, processList_strip, load_loop_strip⟩
  · intro name sub
    constructor
    · intro h
      have h2 := List.mem_filter.mp h
      refine ⟨h2.1, ?_⟩
      have := h2.2
      simpa using this
    · intro h
      exact List.mem_filter.mpr ⟨h.1, by simpa using h.2⟩
  · intro n c hin
    have := (List.mem_filter.mp hin).2
    simp at this

/-- C7 witness: a non-hidden directory is enumerated, a hidden one is not,
and a concrete walk with and without an ignore pattern agrees after
stripping the attached files. -/
theorem C7_witness :
    Entry.dir "x" [] ∈ get_sub_directories
      [Entry.dir "x" [], Entry.dir ".y" [], Entry.file "z" ⟨[], .ok none⟩] ∧
    Entry.dir ".y" [] ∉ get_sub_directories
      [Entry.dir "x" [], Entry.dir ".y" [], Entry.file "z" ⟨[], .ok none⟩] ∧
    stripResult (processList ["*.txt"]
      [Entry.dir "d" [Entry.file "a.txt" ⟨[], .ok none⟩]] "/p"
      [Entry.dir "d" [Entry.file "a.txt" ⟨[], .ok none⟩]]) =
    stripResult (processList []
      [Entry.dir "d" [Entry.file "a.txt" ⟨[], .ok none⟩]] "/p"
      [Entry.dir "d" [Entry.file "a.txt" ⟨[], .ok none⟩]]) := by
  refine ⟨?_, ?_, ?_⟩
  · exact ((C7_subdir_enumeration
      [Entry.dir "x" [], Entry.dir ".y" [], Entry.file "z" ⟨[], .ok none⟩]).1 "x" []).mpr
      ⟨by simp, by decide⟩
  · intro hin
    have := (((C7_subdir_enumeration
      [Entry.dir "x" [], Entry.dir ".y" [], Entry.file "z" ⟨[], .ok none⟩]).1 ".y" []).mp
      hin).2
    exact absurd this (by decide)
  · exact (C7_subdir_enumeration []).2.2.1 ["*.txt"] []
      [Entry.dir "d" [Entry.file "a.txt" ⟨[], .ok none⟩]] "/p"
      [Entry.dir "d" [Entry.file "a.txt" ⟨[], .ok none⟩]]

/-- C8: a non-root directory without a sidecar builds a Static node whose
metadata is the literal mapping `{type: static}`, and the walk result is
identical to the one produced when a sidecar explicitly declaring
`{type: static}` is present. -/
theorem C8_static_default (ig : List String) (E1 E2 : List Entry) (p name : String)
    (sub : List Entry) (nm : String) (lines : List String)
    (hh : strStartsWith name "." = false)
    (h1 : lookupEntry E1 (name ++ ".yml") = none)
    (h2 : lookupEntry E2 (name ++ ".yml") =
      some (.file nm ⟨lines, .ok (some [("type", "static")])⟩)) :
    processList ig E1 p [.dir name sub] = processList ig E2 p [.dir name sub] ∧
    (∀ res, processList ig E1 p [.dir name sub] = .ok res →
      ∃ fs cs,
        res.1 = [FolderNode.mk .static (osJoin p name) [("type", "static")] fs cs]) := by
  have d1 := processEntry_dir ig E1 p name sub hh
  have d2 := processEntry_dir ig E2 p name sub hh
  have m1 : read_metadata E1 (osJoin p name) name = .ok none := by
    simp [read_metadata, h1]
  have m2 : read_metadata E2 (osJoin p name) name = .ok (some [("type", "static")]) := by
    simp [read_metadata, h2]
  simp only [m1] at d1
  simp only [m2] at d2
  have hns1 : nodeSpec (osJoin p name) none = .ok (.static, [("type", "static")]) := rfl
  have hns2 : nodeSpec (osJoin p name) (some [("type", "static")]) =
      .ok (.static, [("type", "static")]) := rfl
  simp only [hns1] at d1
  simp only [hns2] at d2
  constructor
  · rw [processList_cons, processList_cons, d1, d2]
    simp only [processList_nil]
  · intro res h
    rw [processList_cons, d1] at h
    cases hl : processList ig sub (osJoin p name) sub with
    | error er => simp [hl] at h
    | ok r =>
      simp only [hl, processList_nil] at h
      injection h with h2e
      subst h2e
      exact ⟨get_files_in_folder ig sub (osJoin p name), r.1, by simp⟩

/-- C8 witness: `d` with no sidecar and `d` with an explicit
`{type: static}` sidecar produce the same walk result, a Static node with
the literal static metadata. -/
theorem C8_witness :
    processList [] [Entry.dir "d" []] "/p" [Entry.dir "d" []] =
      processList []
        [Entry.dir "d" [], Entry.file "d.yml" ⟨[], .ok (some [("type", "static")])⟩]
        "/p" [Entry.dir "d" []] ∧
    ∃ fs cs,
      ([FolderNode.mk NodeType.static "/p/d" [("type", "static")] [] []],
        ([] : List (String × FolderNode))).1 =
        [FolderNode.mk .static (osJoin "/p" "d") [("type", "static")] fs cs] := by
  have h := C8_static_default [] [Entry.dir "d" []]
    [Entry.dir "d" [], Entry.file "d.yml" ⟨[], .ok (some [("type", "static")])⟩]
    "/p" "d" [] "d.yml" [] rfl rfl rfl
  exact ⟨h.1, h.2 ([FolderNode.mk NodeType.static "/p/d" [("type", "static")] [] []], []) rfl⟩

/-- C9: a sidecar that parses to an empty (falsy) mapping is treated, on a
non-root directory, exactly like a missing sidecar — an implicit Static
node with `{type: static}`, not an unknown-type error — while on a
top-level directory the same empty mapping takes the type-check error path
(invalid root type), not the missing-metadata path. -/
theorem C9_empty_mapping (ig : List String) (E1 E2 : List Entry) (p name : String)
    (sub : List Entry) (nm : String) (lines : List String)
    (hh : strStartsWith name "." = false)
    (h1 : lookupEntry E1 (name ++ ".yml") = some (.file nm ⟨lines, .ok (some [])⟩))
    (h2 : lookupEntry E2 (name ++ ".yml") = none) :
    (processList ig E1 p [.dir name sub] = processList ig E2 p [.dir name sub] ∧
      (∀ res, processList ig E1 p [.dir name sub] = .ok res →
        ∃ fs cs,
          res.1 = [FolderNode.mk .static (osJoin p name) [("type", "static")] fs cs])) ∧
    (∀ rootE rootPath name2 sub2 rest nm2 lines2,
      lookupEntry rootE (name2 ++ ".yml") = some (.file nm2 ⟨lines2, .ok (some [])⟩) →
      load_schema_loop ig rootE rootPath (.dir name2 sub2 :: rest) =
        .error (.invalidRootType (osJoin rootPath (osJoin rootPath name2)))) := by
  constructor
  · have d1 := processEntry_dir ig E1 p name sub hh
    have d2 := processEntry_dir ig E2 p name sub hh
    have m1 : read_metadata E1 (osJoin p name) name = .ok (some []) := by
      simp [read_metadata, h1]
    have m2 : read_metadata E2 (osJoin p name) name = .ok none := by
      simp [read_metadata, h2]
    simp only [m1] at d1
    simp only [m2] at d2
    have hns1 : nodeSpec (osJoin p name) (some []) = .ok (.static, [("type", "static")]) := rfl
    have hns2 : nodeSpec (osJoin p name) none = .ok (.static, [("type", "static")]) := rfl
    simp only [hns1] at d1
    simp only [hns2] at d2
    constructor
    · rw [processList_cons, processList_cons, d1, d2]
      simp only [processList_nil]
    · intro res h
      rw [processList_cons, d1] at h
      cases hl : processList ig sub (osJoin p name) sub with
      | error er => simp [hl] at h
      | ok r =>
        simp only [hl, processList_nil] at h
        injection h with h2e
        subst h2e
        exact ⟨get_files_in_folder ig sub (osJoin p name), r.1, by simp⟩
  · intro rootE rootPath name2 sub2 rest nm2 lines2 hlook
    have m : read_metadata rootE (osJoin rootPath (osJoin rootPath name2)) name2 =
        .ok (some []) := by
      simp [read_metadata, hlook]
    rw [load_loop_dir]
    simp only [m]
    rw [if_pos (by decide)]

/-- C9 witness: an empty-mapping sidecar on a non-root directory produces
the implicit Static node; the same sidecar on a top-level directory fails
with the invalid-root-type error. -/
theorem C9_witness :
    processList [] [Entry.dir "d" [], Entry.file "d.yml" ⟨[], .ok (some [])⟩]
        "/p" [Entry.dir "d" []] =
      processList [] [Entry.dir "d" []] "/p" [Entry.dir "d" []] ∧
    load_schema_loop [] [Entry.dir "top" [], Entry.file "top.yml" ⟨[], .ok (some [])⟩]
        "/r" [Entry.dir "top" []] =
      .error (.invalidRootType "/r/top") := by
  have h := C9_empty_mapping []
    [Entry.dir "d" [], Entry.file "d.yml" ⟨[], .ok (some [])⟩]
    [Entry.dir "d" []] "/p" "d" [] "d.yml" [] rfl rfl rfl
  exact ⟨h.1.1, h.2 [Entry.dir "top" [], Entry.file "top.yml" ⟨[], .ok (some [])⟩]
    "/r" "top" [] [] "top.yml" [] rfl⟩

/-- C3: after a successful build the entity index maps each entity-type
string to exactly the nodes registered for that type: every entity node
appears in exactly one list, keyed by its own derived entity-type, every
project node appears under the reserved key `"Project"`, and the lookup is
total — it returns the empty sequence (never an error) for any entity-type
string that was never registered during the build. -/
theorem C3_entity_index (ig : List String) (E : List Entry) (root : String)
    (projects : List FolderNode) (pairs : List (String × FolderNode))
    (h : load_schema ig E root = .ok (projects, pairs)) :
    (∀ et, get_folder_objs_for_entity_type (buildIndex pairs) et =
      (pairs.filter (fun pr => pr.1 == et)).map (fun pr => pr.2)) ∧
    (∀ n et, n ∈ get_folder_objs_for_entity_type (buildIndex pairs) et →
      (n.ntype = NodeType.shotgunEntity ∧ n.get_entity_type = et) ∨
      (et = "Project" ∧ n ∈ projects)) ∧
    (∀ t n, (t, n) ∈ pairs → n.ntype = NodeType.shotgunEntity →
      n ∈ get_folder_objs_for_entity_type (buildIndex pairs) n.get_entity_type ∧
      ∀ et, n ∈ get_folder_objs_for_entity_type (buildIndex pairs) et →
        et = n.get_entity_type) ∧
    (∀ q, q ∈ projects →
      q ∈ get_folder_objs_for_entity_type (buildIndex pairs) "Project") ∧
    (∀ et, et ≠ "Project" → (∀ pr ∈ pairs, pr.1 ≠ et) →
      get_folder_objs_for_entity_type (buildIndex pairs) et = []) := by
  have h' : load_schema_loop ig E root (get_sub_directories E) = .ok (projects, pairs) := h
  have hpairs := load_loop_pairs ig E root (get_sub_directories E) (projects, pairs) h'
  have hproj := load_loop_projects ig E root (get_sub_directories E) (projects, pairs) h'
  refine ⟨gfo_buildIndex pairs, ?_, ?_, ?_, ?_⟩
  · intro n et hn
    rw [gfo_buildIndex] at hn
    obtain ⟨pr, hprf, hpr2⟩ := List.mem_map.mp hn
    obtain ⟨hprm, hkey⟩ := List.mem_filter.mp hprf
    have hkey2 : pr.1 = et := by simpa using hkey
    rcases hpairs pr hprm with ⟨hk, hp, hmem⟩ | ⟨hent, hget⟩
    · right
      refine ⟨by rw [← hkey2, hk], ?_⟩
      rw [← hpr2]
      exact hmem
    · left
      refine ⟨by rw [← hpr2]; exact hent, ?_⟩
      rw [← hpr2, ← hget, hkey2]
  · intro t n hmem hent
    have hforms := hpairs (t, n) hmem
    have hget : t = n.get_entity_type := by
      rcases hforms with ⟨hk, hp, hmemp⟩ | ⟨hent2, hget⟩
      · rw [hp] at hent
        cases hent
      · exact hget
    constructor
    · rw [gfo_buildIndex]
      exact List.mem_map.mpr ⟨(t, n),
        List.mem_filter.mpr ⟨hmem, by simp [hget]⟩, rfl⟩
    · intro et hn
      rw [gfo_buildIndex] at hn
      obtain ⟨pr, hprf, hpr2⟩ := List.mem_map.mp hn
      obtain ⟨hprm, hkey⟩ := List.mem_filter.mp hprf
      have hkey2 : pr.1 = et := by simpa using hkey
      rcases hpairs pr hprm with ⟨hk, hp, hmemp⟩ | ⟨hent2, hget2⟩
      · rw [hpr2] at hp
        rw [hp] at hent
        cases hent
      · rw [← hkey2, hget2, hpr2]
  · intro q hq
    obtain ⟨hp, hmemp⟩ := hproj q hq
    rw [gfo_buildIndex]
    exact List.mem_map.mpr ⟨("Project", q),
      List.mem_filter.mpr ⟨hmemp, by simp⟩, rfl⟩
  · intro et hne hnone
    rw [gfo_buildIndex]
    have hfilt : pairs.filter (fun pr => pr.1 == et) = [] := by
      rw [List.filter_eq_nil_iff]
      intro pr hpr
      simp [hnone pr hpr]
    rw [hfilt]
    rfl

/-- A two-level concrete schema exercising the index: a project `proj`
holding an entity directory `shots` of entity-type `Shot`. -/
def egShots : FolderNode :=
  .mk .shotgunEntity "/r/proj/shots"
    [("type", "shotgun_entity"), ("entity_type", "Shot")] [] []

def egProj : FolderNode :=
  .mk .project "/r/proj" [("type", "project")] [] [egShots]

def egRoot : List Entry :=
  [.dir "proj"
      [.dir "shots" [],
        .file "shots.yml"
          ⟨[], .ok (some [("type", "shotgun_entity"), ("entity_type", "Shot")])⟩],
    .file "proj.yml" ⟨[], .ok (some [("type", "project")])⟩]

def egPairs : List (String × FolderNode) :=
  [("Project", egProj), ("Shot", egShots)]

/-- C3 witness: in the concrete build, the `Shot` list holds the shots
node, the never-observed type `Asset` yields the empty sequence, and the
project node sits under `"Project"`. -/
theorem C3_witness :
    egShots ∈ get_folder_objs_for_entity_type (buildIndex egPairs) "Shot" ∧
    get_folder_objs_for_entity_type (buildIndex egPairs) "Asset" = [] ∧
    egProj ∈ get_folder_objs_for_entity_type (buildIndex egPairs) "Project" := by
  have h := C3_entity_index [] egRoot "/r" [egProj] egPairs rfl
  refine ⟨?_, ?_, ?_⟩
  · exact (h.2.2.1 "Shot" egShots
      (List.mem_cons_of_mem _ (List.mem_singleton.mpr rfl)) rfl).1
  · exact h.2.2.2.2 "Asset" (by decide) (by
      intro pr hpr
      rcases List.mem_cons.mp hpr with h1 | h2
      · rw [h1]
        decide
      · rw [List.mem_singleton.mp h2]
        decide)
  · exact h.2.2.2.1 egProj (List.mem_singleton.mpr rfl)

end TankFolder
